import Mathlib

/-!
Verification of the document-ingestion and role-fit pipeline.

This file is a shallow embedding, over `List Char`, of the two source files
`src/app.js` (upload ingestion: Textract OCR polling, field parsing,
DynamoDB persistence) and `src/roleMatch.js` (DynamoDB-stream triggered
role-fit evaluation against a Bedrock Titan model).

Modelling conventions:
- JavaScript strings are `List Char`.  JS strings are UTF-16 sequences while
  Lean `Char` is a Unicode scalar value; all string constants appearing in the
  sources are ASCII, and `toLowerCase` is modelled by its ASCII action.
- Fallible operations (`decodeURIComponent`, `JSON.parse`, network calls)
  return `Option`/`Except` instead of throwing.
- The external collaborators (Textract, DynamoDB, Bedrock) are oracles:
  the Textract job is a stream of `GetDocumentTextDetection` responses
  consumed one per request, and the Lambda handlers are parametrised by an
  environment recording the outcome of each network call.  The effect of a
  handler run is the ordered list of store writes / model invocations it
  performs.
-/

namespace S2P

/-! ## Characters and JS string primitives -/

/-- The backtick character (code 96); named because of its role in the
code-fence markers of `roleMatch.js`. -/
def tick : Char := Char.ofNat 96

/-- ASCII lower-casing, modelling `String.prototype.toLowerCase` on the ASCII
range (all vocabulary and keyword constants in the sources are ASCII). -/
def toLowerJs (c : Char) : Char :=
  if 'A' ≤ c ∧ c ≤ 'Z' then Char.ofNat (c.toNat + 32) else c

/-- Lower-case a whole string. -/
def lowerStr (l : List Char) : List Char := l.map toLowerJs

/-- Case-insensitive comparison of a character against an (already
lower-case) target, as the `i` regex flag does. -/
def lowEq (c target : Char) : Bool := toLowerJs c == target

/-- The JS whitespace class: the set matched by `\s` and trimmed by
`String.prototype.trim`. -/
def isJsWs (c : Char) : Bool :=
  let n := c.toNat
  n == 32 || n == 9 || n == 10 || n == 13 || n == 11 || n == 12 ||
  n == 160 || n == 0x1680 || (0x2000 ≤ n && n ≤ 0x200A) ||
  n == 0x2028 || n == 0x2029 || n == 0x202F || n == 0x205F ||
  n == 0x3000 || n == 0xFEFF

/-- `String.prototype.trim`: strip JS whitespace from both ends. -/
def trimStr (l : List Char) : List Char :=
  ((l.dropWhile isJsWs).reverse.dropWhile isJsWs).reverse

/-- `String.prototype.includes` on lists: `containsList pat s` is true iff
`pat` occurs contiguously inside `s`. -/
def containsList (pat : List Char) : List Char → Bool
  | [] => pat.isEmpty
  | c :: rest => pat.isPrefixOf (c :: rest) || containsList pat rest

/-- The digit class `\d` of JS regexes (`0`–`9` only). -/
def isDigitCh (c : Char) : Bool := '0' ≤ c && c ≤ '9'

/-- Split on `/\r?\n/` (used by `extractName`): `\n` separates, an
immediately preceding `\r` is consumed with it, a lone `\r` is content. -/
def splitLinesGo (cur : List Char) : List Char → List (List Char)
  | [] => [cur.reverse]
  | c :: rest =>
    if c == '\n' then cur.reverse :: splitLinesGo [] rest
    else if c == '\r' then
      match rest with
      | [] => (c :: cur).reverse :: []
      | d :: rest2 =>
        if d == '\n' then cur.reverse :: splitLinesGo [] rest2
        else splitLinesGo (c :: cur) (d :: rest2)
    else splitLinesGo (c :: cur) rest

/-- `text.split(/\r?\n/)`. -/
def splitLines (l : List Char) : List (List Char) := splitLinesGo [] l

/-- One step of `split(/\s+/)`: fuelled worker.  Mirrors the JS semantics:
every maximal whitespace run is a single separator, and a separator at the
start or end of the string contributes an empty segment. -/
def splitWsGo : Nat → List Char → List (List Char)
  | 0, _ => []
  | n + 1, l =>
    let tok := l.takeWhile (fun c => !isJsWs c)
    let rest := l.drop tok.length
    match rest with
    | [] => [tok]
    | _ :: _ => tok :: splitWsGo n (rest.dropWhile isJsWs)

/-- `s.split(/\s+/)` (the fuel `l.length + 1` always suffices: each round
consumes at least one character). -/
def jsSplitWs (l : List Char) : List (List Char) := splitWsGo (l.length + 1) l

end S2P

namespace App

open S2P

/-! ## `app.js` — field parsers -/

/-- Character class `[a-zA-Z0-9._%+-]` (local part of the email regex). -/
def classA (c : Char) : Bool :=
  ('a' ≤ c && c ≤ 'z') || ('A' ≤ c && c ≤ 'Z') || isDigitCh c ||
  c == '.' || c == '_' || c == '%' || c == '+' || c == '-'

/-- Character class `[a-zA-Z0-9.-]` (domain part of the email regex). -/
def classB (c : Char) : Bool :=
  ('a' ≤ c && c ≤ 'z') || ('A' ≤ c && c ≤ 'Z') || isDigitCh c ||
  c == '.' || c == '-'

/-- Character class `[a-zA-Z]`. -/
def isAlphaCh (c : Char) : Bool :=
  ('a' ≤ c && c ≤ 'z') || ('A' ≤ c && c ≤ 'Z')

/-- Backtracking search for the domain tail of the email regex.  After the
`@`, the engine matches `[a-zA-Z0-9.-]+` greedily and backtracks: it looks
for the largest `k ≤ kmax` such that the `k`-th character of `r1` is the
literal dot and at least two letters follow it.  Returns `(k, tld)`. -/
def tryDom (r1 : List Char) : Nat → Option (Nat × List Char)
  | 0 => none
  | k + 1 =>
    (if r1.get? (k + 1) = some '.' then
       if 2 ≤ ((r1.drop (k + 2)).takeWhile isAlphaCh).length then
         some (k + 1, (r1.drop (k + 2)).takeWhile isAlphaCh)
       else none
     else none).orElse (fun _ => tryDom r1 k)

/-- Try to match `/[a-zA-Z0-9._%+-]+@[a-zA-Z0-9.-]+\.[a-zA-Z]{2,}/` at the
head of `l`, returning the matched substring. -/
def matchEmailAt (l : List Char) : Option (List Char) :=
  if (l.takeWhile classA).isEmpty then none
  else
    match l.dropWhile classA with
    | [] => none
    | c :: r1 =>
      if c == '@' then
        match tryDom r1 ((r1.takeWhile classB).length - 1) with
        | some (k, t) => some (l.takeWhile classA ++ '@' :: (r1.take k ++ '.' :: t))
        | none => none
      else none

/-- Leftmost match: run a positional matcher at every start position, in
order, as `String.prototype.match` does for an unanchored regex. -/
def scanFirst (f : List Char → Option (List Char)) : List Char → Option (List Char)
  | [] => f []
  | c :: rest => (f (c :: rest)).orElse (fun _ => scanFirst f rest)

/-- `extractEmail` (app.js line 21): first match of the email regex, null if
none. -/
def extractEmail (text : List Char) : Option (List Char) :=
  scanFirst matchEmailAt text

/-- Character class `[\d\s\-]` of the phone regex. -/
def classPh (c : Char) : Bool := isDigitCh c || isJsWs c || c == '-'

/-- Try to match `/(\+?\d[\d\s\-]{8,15})/` at the head of `l`: optional `+`,
a digit, then greedily 8 to 15 characters of `[\d\s\-]`. -/
def matchPhoneAt (l : List Char) : Option (List Char) :=
  let (plus, l1) :=
    match l with
    | c :: rest => if c == '+' then ([c], rest) else ([], l)
    | [] => ([], l)
  match l1 with
  | d :: r1 =>
    if isDigitCh d then
      let run := r1.takeWhile classPh
      let m := min run.length 15
      if 8 ≤ m then some (plus ++ d :: r1.take m) else none
    else none
  | [] => none

/-- `extractPhone` (app.js line 26). -/
def extractPhone (text : List Char) : Option (List Char) :=
  scanFirst matchPhoneAt text

/-- A line is skipped by `extractName` when it mentions resume/curriculum/
vitae (case-insensitively), contains `@`, or contains a digit
(app.js lines 39–41). -/
def bannedLine (l : List Char) : Bool :=
  containsList "resume".toList (lowerStr l) ||
  containsList "curriculum".toList (lowerStr l) ||
  containsList "vitae".toList (lowerStr l) ||
  l.contains '@' || l.any isDigitCh

/-- The non-blank, trimmed lines of the text (app.js lines 32–35). -/
def nameLines (text : List Char) : List (List Char) :=
  ((splitLines text).map trimStr).filter (fun l => l.length > 0)

/-- The loop of `extractName` (app.js lines 37–43): banned lines are
skipped with `continue`; the first surviving line with at most five
whitespace-separated tokens is returned. -/
def extractNameGo : List (List Char) → Option (List Char)
  | [] => none
  | l :: rest =>
    if bannedLine l then extractNameGo rest
    else if (jsSplitWs l).length ≤ 5 then some l
    else extractNameGo rest

/-- `extractName` (app.js line 31). -/
def extractName (text : List Char) : Option (List Char) :=
  extractNameGo ((nameLines text).take 8)

/-- The fixed skill vocabulary (app.js lines 48–65). -/
def knownSkills : List (List Char) :=
  ["Java".toList, "Spring Boot".toList, "Python".toList, "Node.js".toList,
   "JavaScript".toList, "TypeScript".toList, "React".toList, "Angular".toList,
   "AWS".toList, "Docker".toList, "Kubernetes".toList, "Spark".toList,
   "Hadoop".toList, "SQL".toList, "NoSQL".toList, "Kafka".toList]

/-- The per-skill test of `extractSkills` (app.js line 71):
`text.toLowerCase().includes(skill.toLowerCase())`. -/
def skillMatches (skill text : List Char) : Bool :=
  containsList (lowerStr skill) (lowerStr text)

/-- Lexicographic (code-point) string order, the default
`Array.prototype.sort` comparison for ASCII strings. -/
def leStr : List Char → List Char → Bool
  | [], _ => true
  | _ :: _, [] => false
  | a :: as, b :: bs =>
    if a.toNat < b.toNat then true
    else if b.toNat < a.toNat then false
    else leStr as bs

/-- `leStr` as a decidable relation, for sorting. -/
def strLe (a b : List Char) : Prop := leStr a b = true

instance : DecidableRel strLe := fun _ _ => instDecidableEqBool _ _

/-- `extractSkills` (app.js line 47): the vocabulary entries whose
lower-casing occurs in the lower-cased text (the `Set` preserves the
vocabulary order and the vocabulary has no duplicates, so the collected
array is a filter of `knownSkills`), sorted ascending. -/
def extractSkills (text : List Char) : List (List Char) :=
  List.insertionSort strLe (knownSkills.filter (fun sk => skillMatches sk text))

end App

namespace App

open S2P

/-! ## `app.js` — asynchronous Textract extraction (lines 81–146)

The Textract job is modelled as the stream of `GetDocumentTextDetection`
responses the service would return, consumed one per `send`.  `none` as the
overall result models a run in which the stream is exhausted while the code
would still be polling (the loop has no timeout). -/

/-- One block of a Textract response. -/
structure Block where
  BlockType : List Char
  Text : Option (List Char)
  deriving DecidableEq

/-- One `GetDocumentTextDetection` response. -/
structure GetRes where
  JobStatus : List Char
  Blocks : Option (List Block)
  NextToken : Option (List Char)
  deriving DecidableEq

/-- JS truthiness of an optional string (`undefined` and `""` are falsy). -/
def truthyOpt : Option (List Char) → Bool
  | none => false
  | some s => !s.isEmpty

/-- The text of one result page (lines 117–122): the `LINE` blocks with
truthy `Text`, joined by newlines. -/
def blocksText (bs : List Block) : List Char :=
  List.intercalate ['\n']
    ((bs.filter (fun b => b.BlockType == "LINE".toList && truthyOpt b.Text)).map
      (fun b => b.Text.getD []))

/-- Page text of a response, with `getRes.Blocks || []`. -/
def pageText (r : GetRes) : List Char := blocksText (r.Blocks.getD [])

/-- The inner pagination loop (lines 125–139): keep following `NextToken`
while it is truthy (absent or empty-string tokens stop the loop), appending
each page's text. -/
def drainPages : Option (List Char) → List GetRes → List (List Char) →
    Option (List (List Char))
  | tok, stream, pages =>
    if truthyOpt tok then
      match stream with
      | [] => none
      | r :: rest => drainPages r.NextToken rest (pages ++ [pageText r])
    else some pages

/-- The polling loop (lines 98–143).  The result is the list of collected
page texts, or the final `FAILED` response as a thrown error. -/
def pollLoop : List GetRes → Option (Except GetRes (List (List Char)))
  | [] => none
  | r :: rest =>
    if r.JobStatus = "FAILED".toList then some (.error r)
    else if r.JobStatus = "SUCCEEDED".toList then
      (drainPages r.NextToken rest [pageText r]).map .ok
    else if r.JobStatus = "IN_PROGRESS".toList then pollLoop rest
    else some (.ok [])

/-- `extractTextFromS3Pdf` (line 81), as a function of the response stream:
the collected page texts joined by newlines (line 145). -/
def extractTextFromS3Pdf (stream : List GetRes) : Option (Except GetRes (List Char)) :=
  (pollLoop stream).map (fun r => r.map (List.intercalate ['\n']))

/-! ## `decodeURIComponent` and the ingestion handler (lines 174–212) -/

/-- Hexadecimal digit value. -/
def hexVal (c : Char) : Option Nat :=
  if '0' ≤ c ∧ c ≤ '9' then some (c.toNat - 48)
  else if 'a' ≤ c ∧ c ≤ 'f' then some (c.toNat - 87)
  else if 'A' ≤ c ∧ c ≤ 'F' then some (c.toNat - 55)
  else none

/-- Errors thrown by the modelled JS runtime: `URIError` from
`decodeURIComponent`, and arbitrary exceptions thrown by collaborators. -/
inductive JsError where
  | uriError : JsError
  | exn : Nat → JsError
  deriving DecidableEq

/-- Parse one `%HH` escape, returning the byte and the remaining input. -/
def pctByte : List Char → Option (Nat × List Char)
  | c :: h1 :: h2 :: rest =>
    if c == '%' then
      match hexVal h1, hexVal h2 with
      | some a, some b => some (16 * a + b, rest)
      | _, _ => none
    else none
  | _ => none

/-- Parse `n` continuation bytes (`%HH` with value in `0x80–0xBF`),
accumulating the code point so far. -/
def pctCont : Nat → Nat → List Char → Option (Nat × List Char)
  | 0, v, l => some (v, l)
  | n + 1, v, l =>
    match pctByte l with
    | some (b, rest) =>
      if 0x80 ≤ b ∧ b ≤ 0xBF then pctCont n (64 * v + (b - 0x80)) rest else none
    | none => none

/-- Fuelled worker for `decodeURIComponent` (ECMAScript `Decode`): `%HH`
escapes are assembled into UTF-8 sequences; a malformed escape, a bad
leading or continuation byte, an overlong encoding, a surrogate, or a value
beyond `0x10FFFF` raises `URIError`.  Other characters pass through.  The
fuel `l.length` always suffices (each step consumes at least one char). -/
def decodeGo : Nat → List Char → Except JsError (List Char)
  | 0, [] => .ok []
  | 0, _ :: _ => .error .uriError
  | fuel + 1, l =>
    match l with
    | [] => .ok []
    | c :: rest =>
      if c == '%' then
        match pctByte l with
        | none => .error .uriError
        | some (b, r1) =>
          if b < 0x80 then (decodeGo fuel r1).map (Char.ofNat b :: ·)
          else if 0xC0 ≤ b ∧ b ≤ 0xDF then
            match pctCont 1 (b - 0xC0) r1 with
            | some (v, r2) =>
              if 0x80 ≤ v then (decodeGo fuel r2).map (Char.ofNat v :: ·)
              else .error .uriError
            | none => .error .uriError
          else if 0xE0 ≤ b ∧ b ≤ 0xEF then
            match pctCont 2 (b - 0xE0) r1 with
            | some (v, r2) =>
              if 0x800 ≤ v ∧ ¬(0xD800 ≤ v ∧ v ≤ 0xDFFF) then
                (decodeGo fuel r2).map (Char.ofNat v :: ·)
              else .error .uriError
            | none => .error .uriError
          else if 0xF0 ≤ b ∧ b ≤ 0xF7 then
            match pctCont 3 (b - 0xF0) r1 with
            | some (v, r2) =>
              if 0x10000 ≤ v ∧ v ≤ 0x10FFFF then
                (decodeGo fuel r2).map (Char.ofNat v :: ·)
              else .error .uriError
            | none => .error .uriError
          else .error .uriError
      else (decodeGo fuel rest).map (c :: ·)

/-- `decodeURIComponent`, as used on the object key (line 184). -/
def decodeURIComponent (l : List Char) : Except JsError (List Char) :=
  decodeGo l.length l

/-- `key.replace(/\+/g, " ")` (line 184). -/
def replacePlus (l : List Char) : List Char :=
  l.map (fun c => if c == '+' then ' ' else c)

/-- One S3 upload notification (`record.s3.bucket.name` /
`record.s3.object.key`). -/
structure S3Record where
  bucket : List Char
  key : List Char

/-- The candidate item assembled at line 200. -/
structure CandidateItem where
  candidateId : List Char
  bucket : List Char
  fileKey : List Char
  rawText : List Char
  name : Option (List Char)
  email : Option (List Char)
  phone : Option (List Char)
  skills : List (List Char)

/-- The marshalled DynamoDB item written by `saveCandidateToDynamo`
(lines 150–170): attribute-value wrappers are elided; optional attributes
are `none` exactly when the source omits them from `params.Item`. -/
structure DynamoItem where
  candidateId : List Char
  bucket : List Char
  fileKey : List Char
  rawText : List Char
  name : Option (List Char)
  email : Option (List Char)
  phone : Option (List Char)
  skills : Option (List (List Char))
  deriving DecidableEq

/-- Build the `PutItem` payload from a candidate item (lines 151–166):
name/email/phone are included only when truthy, skills only when
non-empty. -/
def putItemOf (item : CandidateItem) : DynamoItem :=
  { candidateId := item.candidateId
    bucket := item.bucket
    fileKey := item.fileKey
    rawText := item.rawText
    name := if truthyOpt item.name then item.name else none
    email := if truthyOpt item.email then item.email else none
    phone := if truthyOpt item.phone then item.phone else none
    skills := if item.skills.length > 0 then some item.skills else none }

/-- Environment of the ingestion handler: outcome of the Textract pipeline
per (bucket, key), outcome of each `PutItem`, and the UUID supply
(`randomUUID`, indexed by how many UUIDs were generated so far). -/
structure IngestEnv where
  extractText : List Char → List Char → Except JsError (List Char)
  putItem : DynamoItem → Except JsError Unit
  randomUUID : Nat → List Char

/-- The handler's HTTP-style result object. -/
structure HandlerResponse where
  statusCode : Nat
  body : List Char
  deriving DecidableEq

/-- The candidate item the handler builds for a record whose text was
extracted successfully (lines 193–200). -/
def itemFor (env : IngestEnv) (n : Nat) (bucket key text : List Char) : DynamoItem :=
  putItemOf
    { candidateId := env.randomUUID n
      bucket := bucket
      fileKey := key
      rawText := text
      name := extractName text
      email := extractEmail text
      phone := extractPhone text
      skills := extractSkills text }

/-- The per-record loop of the ingestion handler (lines 182–209).  The key
decoding at line 184 happens OUTSIDE the try/catch that starts at line 188,
so a `URIError` there propagates and aborts the remaining records; errors
from extraction or the store write are caught and only skip the record.
Returns the successful store writes in order, paired with the handler's
outcome (`.error` models the invocation rejecting). -/
def processRecords (env : IngestEnv) (n : Nat) :
    List S3Record → List DynamoItem × Except JsError HandlerResponse
  | [] => ([], .ok ⟨200, "OK".toList⟩)
  | r :: rest =>
    match decodeURIComponent (replacePlus r.key) with
    | .error e => ([], .error e)
    | .ok key =>
      match env.extractText r.bucket key with
      | .error _ => processRecords env n rest
      | .ok text =>
        let d := itemFor env n r.bucket key text
        match env.putItem d with
        | .error _ => processRecords env (n + 1) rest
        | .ok _ =>
          (d :: (processRecords env (n + 1) rest).1,
           (processRecords env (n + 1) rest).2)

/-- `exports.handler` of app.js (line 174). -/
def handler (env : IngestEnv) (records : List S3Record) :
    List DynamoItem × Except JsError HandlerResponse :=
  if records.isEmpty then ([], .ok ⟨200, "No records".toList⟩)
  else processRecords env 0 records

end App

namespace RoleMatch

open S2P

/-! ## `roleMatch.js` — JSON values and `JSON.parse`

JSON values as produced by `JSON.parse`.  Numbers are kept as their source
lexeme (their numeric value is never consumed by this code, only stored);
object members are kept as the parsed key/value list in textual order.
A JSON string written with `\uXXXX` escapes that denote a lone UTF-16
surrogate cannot be represented by Lean `Char` and is modelled as a parse
failure. -/

inductive Json where
  | null : Json
  | tru : Json
  | fals : Json
  | num : List Char → Json
  | str : List Char → Json
  | arr : List Json → Json
  | obj : List (List Char × Json) → Json

/-- JSON insignificant whitespace (space, tab, line feed, carriage return). -/
def isJWs (c : Char) : Bool := c == ' ' || c == '\t' || c == '\n' || c == '\r'

/-- Skip JSON whitespace. -/
def skipJWs (l : List Char) : List Char := l.dropWhile isJWs

/-- Parse the body of a JSON string (after the opening quote), decoding
escapes; returns the content and the input after the closing quote. -/
def parseJStr : List Char → Option (List Char × List Char)
  | [] => none
  | c :: rest =>
    if c == '"' then some ([], rest)
    else if c == '\\' then
      match rest with
      | [] => none
      | e :: rest2 =>
        if e == '"' then (parseJStr rest2).map (fun p => ('"' :: p.1, p.2))
        else if e == '\\' then (parseJStr rest2).map (fun p => ('\\' :: p.1, p.2))
        else if e == '/' then (parseJStr rest2).map (fun p => ('/' :: p.1, p.2))
        else if e == 'b' then (parseJStr rest2).map (fun p => (Char.ofNat 8 :: p.1, p.2))
        else if e == 'f' then (parseJStr rest2).map (fun p => (Char.ofNat 12 :: p.1, p.2))
        else if e == 'n' then (parseJStr rest2).map (fun p => ('\n' :: p.1, p.2))
        else if e == 'r' then (parseJStr rest2).map (fun p => ('\r' :: p.1, p.2))
        else if e == 't' then (parseJStr rest2).map (fun p => ('\t' :: p.1, p.2))
        else if e == 'u' then
          match rest2 with
          | h1 :: h2 :: h3 :: h4 :: rest3 =>
            match App.hexVal h1, App.hexVal h2, App.hexVal h3, App.hexVal h4 with
            | some a, some b, some c', some d =>
              let code := 4096 * a + 256 * b + 16 * c' + d
              if 0xD800 ≤ code ∧ code ≤ 0xDBFF then
                match rest3 with
                | b1 :: u1 :: g1 :: g2 :: g3 :: g4 :: rest4 =>
                  if b1 == '\\' && u1 == 'u' then
                    match App.hexVal g1, App.hexVal g2, App.hexVal g3, App.hexVal g4 with
                    | some a2, some b2, some c2, some d2 =>
                      let low := 4096 * a2 + 256 * b2 + 16 * c2 + d2
                      if 0xDC00 ≤ low ∧ low ≤ 0xDFFF then
                        (parseJStr rest4).map (fun p =>
                          (Char.ofNat (0x10000 + 1024 * (code - 0xD800) + (low - 0xDC00)) :: p.1, p.2))
                      else none
                    | _, _, _, _ => none
                  else none
                | _ => none
              else if 0xDC00 ≤ code ∧ code ≤ 0xDFFF then none
              else (parseJStr rest3).map (fun p => (Char.ofNat code :: p.1, p.2))
            | _, _, _, _ => none
          | _ => none
        else none
    else if c.toNat < 0x20 then none
    else (parseJStr rest).map (fun p => (c :: p.1, p.2))

/-- Parse a JSON number token, returning its lexeme and the rest. -/
def parseJNum (l : List Char) : Option (List Char × List Char) :=
  let (sign, l1) :=
    match l with
    | c :: rest => if c == '-' then (['-'], rest) else (([] : List Char), l)
    | [] => ([], l)
  let ds := l1.takeWhile isDigitCh
  if ds.isEmpty then none
  else if ds.length > 1 ∧ ds.head? = some '0' then none
  else
    let l2 := l1.drop ds.length
    let (frac, l3) :=
      match l2 with
      | c :: rest =>
        if c == '.' then
          let fs := rest.takeWhile isDigitCh
          if fs.isEmpty then ([], l2) else ('.' :: fs, rest.drop fs.length)
        else (([] : List Char), l2)
      | [] => ([], l2)
    if frac.isEmpty ∧ (l2.head? = some '.') then none
    else
      let (ex, l4) :=
        match l3 with
        | c :: rest =>
          if c == 'e' || c == 'E' then
            let (es, rest2) :=
              match rest with
              | s :: r2 => if s == '+' || s == '-' then ([s], r2) else (([] : List Char), rest)
              | [] => ([], rest)
            let xs := rest2.takeWhile isDigitCh
            if xs.isEmpty then (([] : List Char), none)
            else (c :: (es ++ xs), some (rest2.drop xs.length))
          else ([], some l3)
        | [] => ([], some l3)
      match l4 with
      | none => none
      | some l5 => some (sign ++ ds ++ frac ++ ex, l5)

mutual

/-- Fuelled JSON value parser (the fuel `input.length + 1` always
suffices: every recursive call consumes at least one character). -/
def parseVal : Nat → List Char → Option (Json × List Char)
  | 0, _ => none
  | fuel + 1, l =>
    if "true".toList.isPrefixOf l then some (.tru, l.drop 4)
    else if "false".toList.isPrefixOf l then some (.fals, l.drop 5)
    else if "null".toList.isPrefixOf l then some (.null, l.drop 4)
    else
      match l with
      | [] => none
      | c :: rest =>
        if c == '"' then (parseJStr rest).map (fun p => (Json.str p.1, p.2))
        else if c == Char.ofNat 123 then
          let s1 := skipJWs rest
          match s1 with
          | d :: s2 => if d == Char.ofNat 125 then some (.obj [], s2) else parseMembers fuel s1 []
          | [] => none
        else if c == '[' then
          let s1 := skipJWs rest
          match s1 with
          | d :: s2 => if d == ']' then some (.arr [], s2) else parseItems fuel s1 []
          | [] => none
        else if c == '-' || isDigitCh c then
          (parseJNum l).map (fun p => (Json.num p.1, p.2))
        else none

/-- Parse the members of an object (after `{`, at a key). -/
def parseMembers : Nat → List Char → List (List Char × Json) →
    Option (Json × List Char)
  | 0, _, _ => none
  | fuel + 1, l, acc =>
    match l with
    | c :: rest =>
      if c == '"' then
        match parseJStr rest with
        | some (k, r1) =>
          match skipJWs r1 with
          | d :: r2 =>
            if d == ':' then
              match parseVal fuel (skipJWs r2) with
              | some (v, r3) =>
                match skipJWs r3 with
                | e :: r4 =>
                  if e == Char.ofNat 125 then some (.obj (acc ++ [(k, v)]), r4)
                  else if e == ',' then parseMembers fuel (skipJWs r4) (acc ++ [(k, v)])
                  else none
                | [] => none
              | none => none
            else none
          | [] => none
        | none => none
      else none
    | [] => none

/-- Parse the items of an array (after `[`, at a value). -/
def parseItems : Nat → List Char → List Json → Option (Json × List Char)
  | 0, _, _ => none
  | fuel + 1, l, acc =>
    match parseVal fuel l with
    | some (v, r1) =>
      match skipJWs r1 with
      | e :: r2 =>
        if e == ']' then some (.arr (acc ++ [v]), r2)
        else if e == ',' then parseItems fuel (skipJWs r2) (acc ++ [v])
        else none
      | [] => none
    | none => none

end

/-- `JSON.parse`: a full JSON text — one value, surrounded only by JSON
whitespace. -/
def jsonParse (t : List Char) : Option Json :=
  match parseVal (t.length + 1) (skipJWs t) with
  | some (v, rest) => if (skipJWs rest).isEmpty then some v else none
  | none => none

end RoleMatch

namespace RoleMatch

open S2P

/-! ## `roleMatch.js` — fence stripping and response parsing (lines 66–98) -/

/-- `textOut.startsWith("\x60\x60\x60")`. -/
def startsTicks (l : List Char) : Bool := "```".toList.isPrefixOf l

/-- Does the fence pattern of `/\x60\x60\x60json?/gi` match at the head:
three backticks then `jso` case-insensitively (the trailing `n?` is
optional and greedy)?  Checked via the three letter positions first; the
conjunction is order-insensitive. -/
def isFence6 (a b c d e f : Char) : Bool :=
  lowEq f 'o' && lowEq e 's' && lowEq d 'j' && a == tick && b == tick && c == tick

/-- `textOut.replace(/\x60\x60\x60json?/gi, "")`: left-to-right scan
removing every non-overlapping match (6 or, greedily, 7 characters). -/
def replaceFence : List Char → List Char
  | [] => []
  | a :: b :: c :: d :: e :: f :: g :: rest =>
    if isFence6 a b c d e f then
      if lowEq g 'n' then replaceFence rest else replaceFence (g :: rest)
    else a :: replaceFence (b :: c :: d :: e :: f :: g :: rest)
  | [a, b, c, d, e, f] =>
    if isFence6 a b c d e f then [] else a :: replaceFence [b, c, d, e, f]
  | a :: rest => a :: replaceFence rest

/-- `textOut.replace(/\x60\x60\x60/g, "")`. -/
def replaceTicks : List Char → List Char
  | [] => []
  | a :: b :: c :: rest =>
    if a == tick && b == tick && c == tick then replaceTicks rest
    else a :: replaceTicks (b :: c :: rest)
  | a :: rest => a :: replaceTicks rest

/-- Lines 72–80: trim the raw output, and if it starts with a code fence,
strip the fence markers and trim again. -/
def processedText (raw : List Char) : List Char :=
  if startsTicks (trimStr raw) then trimStr (replaceTicks (replaceFence (trimStr raw)))
  else trimStr raw

/-- The degraded assessment built on parse failure (lines 89–97). -/
def fallbackAssessment (textOut : List Char) : Json :=
  .obj [("fitScore".toList, .null),
        ("summary".toList, .str textOut),
        ("keyStrengths".toList, .arr []),
        ("concerns".toList, .arr []),
        ("skillsMatched".toList, .arr []),
        ("skillsMissing".toList, .arr []),
        ("recommendedLevel".toList, .str "Unknown".toList)]

/-- Lines 71–98 applied to a raw `outputText`: trim, strip fences, attempt
`JSON.parse`, and fall back to the degraded assessment when parsing
throws. -/
def parseOutputText (raw : List Char) : Json :=
  match jsonParse (processedText raw) with
  | some j => j
  | none => fallbackAssessment (processedText raw)

/-- One entry of the Titan response's `results` array. -/
structure TitanResult where
  outputText : Option (List Char)

/-- The deserialised Titan response body
(`{ results: [ { outputText: ... } ] }`). -/
structure TitanResponse where
  results : List TitanResult

/-- `responseJson?.results?.[0]?.outputText ?? "\x7b\x7d"` (line 71). -/
def titanTextOut (resp : TitanResponse) : List Char :=
  (resp.results.head?.bind (fun r => r.outputText)).getD "\x7b\x7d".toList

/-- The assessment computed from a Titan response (lines 66–98). -/
def assessmentOfResponse (resp : TitanResponse) : Json :=
  parseOutputText (titanTextOut resp)

/-! ## `roleMatch.js` — the stream handler (lines 103–161) -/

/-- The prompt of `evaluateCandidateWithBedrock` (lines 21–46). -/
def promptFor (resumeText roleDescription : List Char) : List Char :=
  "\nYou are an expert technical recruiter.\n\nAnalyze the following candidate resume text and determine how well they fit the given job role.\n\nROLE DESCRIPTION:\n".toList ++
  roleDescription ++
  "\n\nRESUME TEXT:\n".toList ++
  resumeText ++
  "\n\nYou MUST respond with ONLY a single line of valid JSON.\nDo not add any extra text, explanation, or markdown.\n\nThe JSON schema is:\n\n\x7b\n  \"fitScore\": number between 0 and 100,\n  \"summary\": string,\n  \"keyStrengths\": [string],\n  \"concerns\": [string],\n  \"skillsMatched\": [string],\n  \"skillsMissing\": [string],\n  \"recommendedLevel\": \"Junior | Mid | Senior | Lead | Principal\"\n\x7d\n".toList

/-- Environment of the fit handler: the Titan model's behaviour per prompt
(`.error` models a thrown `bedrock.send` / body-parsing failure).  The
store update of `updateCandidateAiFit` is recorded as an effect; its own
outcome cannot alter control flow beyond the per-record catch. -/
structure FitEnv where
  invokeModel : List Char → Except App.JsError TitanResponse

/-- `evaluateCandidateWithBedrock` (line 20): the invocation it performs
(the prompt sent) paired with its outcome. -/
def evaluateCandidateWithBedrock (env : FitEnv) (resumeText roleDescription : List Char) :
    List (List Char) × Except App.JsError Json :=
  let p := promptFor resumeText roleDescription
  ([p],
   match env.invokeModel p with
   | .error e => .error e
   | .ok resp => .ok (assessmentOfResponse resp))

/-- The `NewImage` snapshot of a stream record: the three attributes the
handler reads (string values, `aiFit` by presence). -/
structure StreamImage where
  candidateId : Option (List Char)
  rawText : Option (List Char)
  aiFit : Option (List Char)

/-- A DynamoDB-stream record (`eventName`, `dynamodb.NewImage`). -/
structure StreamRecord where
  eventName : List Char
  newImage : Option StreamImage

/-- Effects of processing one stream record (lines 127–159): the model
invocations made and the store updates attempted, in order.  Skips
(non-insert, missing id or raw text — JS falsiness, so an empty string also
skips — or an `aiFit` already present) produce no effects; a throw from the
model call is caught after the invocation was made. -/
def processFitRecord (env : FitEnv) (role : List Char) (r : StreamRecord) :
    List (List Char) × List (List Char × Json) :=
  if r.eventName ≠ "INSERT".toList then ([], [])
  else
    let img := r.newImage.getD ⟨none, none, none⟩
    if !App.truthyOpt img.candidateId || !App.truthyOpt img.rawText then ([], [])
    else if img.aiFit.isSome then ([], [])
    else
      let cid := img.candidateId.getD []
      let raw := img.rawText.getD []
      match (evaluateCandidateWithBedrock env raw role).2 with
      | .error _ => ((evaluateCandidateWithBedrock env raw role).1, [])
      | .ok aiFit => ((evaluateCandidateWithBedrock env raw role).1, [(cid, aiFit)])

/-- `exports.handler` of roleMatch.js (line 120): the concatenated effects
of the per-record loop. -/
def handler (env : FitEnv) (role : List Char) :
    List StreamRecord → List (List Char) × List (List Char × Json)
  | [] => ([], [])
  | r :: rest =>
    ((processFitRecord env role r).1 ++ (handler env role rest).1,
     (processFitRecord env role r).2 ++ (handler env role rest).2)

end RoleMatch

namespace App

open S2P

/-! ## Spec-side definitions

These definitions follow the wording of the specification (not the code);
the claims compare them with the embedded source functions above. -/

/-- Spec 4.2 (Name): a scanned line qualifies when it is free of the
resume/curriculum/vitae keywords, `@`, and digits, and has at most five
whitespace-separated tokens. -/
def qualifiesSpec (l : List Char) : Bool :=
  !bannedLine l && decide ((jsSplitWs l).length ≤ 5)

/-- Spec 4.2 (Name), stated as written: the first of the first eight
non-blank (trimmed) lines that qualifies, or null. -/
def extractNameSpec (text : List Char) : Option (List Char) :=
  ((nameLines text).take 8).find? qualifiesSpec

/-- A well-formed email address in the sense of the spec ("a standard
local@domain.tld pattern", i.e. the language of the source regex): a
non-empty local part over `[a-zA-Z0-9._%+-]`, an `@`, a non-empty domain
over `[a-zA-Z0-9.-]`, a literal dot, and an alphabetic TLD of length at
least two. -/
def IsEmail (e : List Char) : Prop :=
  ∃ a b t, e = a ++ '@' :: (b ++ '.' :: t) ∧
    a ≠ [] ∧ (∀ c ∈ a, classA c = true) ∧
    b ≠ [] ∧ (∀ c ∈ b, classB c = true) ∧
    (∀ c ∈ t, isAlphaCh c = true) ∧ 2 ≤ t.length

/-- The text contains a well-formed email address. -/
def ContainsEmail (s : List Char) : Prop :=
  ∃ pre e post, s = pre ++ e ++ post ∧ IsEmail e

/-! ## Oracle values for the Textract claims -/

/-- An `IN_PROGRESS` polling response. -/
def inProgRes : GetRes := ⟨"IN_PROGRESS".toList, none, none⟩

/-- The token leading into a chain of continuation pages. -/
def hdTok (conts : List (List Char × List Block)) : Option (List Char) :=
  conts.head?.map (fun c => c.1)

/-- A chain of continuation responses: each carries its page's blocks and
points to the next page's token (absent at the end). -/
def contChain : List (List Char × List Block) → List GetRes
  | [] => []
  | (_, bs) :: rest => ⟨"SUCCEEDED".toList, some bs, hdTok rest⟩ :: contChain rest

/-! ## Concrete environments used by the batch-isolation claim -/

/-- Ingestion environment in which every collaborator call succeeds. -/
def envAllOk : IngestEnv :=
  ⟨fun _ _ => .ok "Jane Doe rawtext".toList, fun _ => .ok (),
   fun n => [Char.ofNat (65 + n)]⟩

/-- Ingestion environment in which extraction throws exactly on the object
key `bad.pdf`. -/
def envExtFails : IngestEnv :=
  ⟨fun _ k => if k = "bad.pdf".toList then .error (.exn 7) else .ok "Jane Doe rawtext".toList,
   fun _ => .ok (), fun n => [Char.ofNat (65 + n)]⟩

end App

namespace RoleMatch

open S2P

/-- Field lookup on a parsed assessment (absent on non-objects). -/
def lookupField : Json → List Char → Option Json
  | .obj ms, k => (ms.find? (fun m => m.1 == k)).map (fun m => m.2)
  | _, _ => none

/-- A model response consisting of a JSON payload wrapped in code-fence
markers: a `\x60\x60\x60json` opener and a `\x60\x60\x60` closer. -/
def wrapFence (s : List Char) : List Char :=
  "```json".toList ++ s ++ "```".toList

/-- Does the fence pattern (`\x60\x60\x60jso`, optionally `n`) match at the
head of the string?  (Head test of one `replaceFence` step.) -/
def fenceAt : List Char → Bool
  | a :: b :: c :: d :: e :: f :: _ => isFence6 a b c d e f
  | _ => false

/-- Do three backticks occur at the head of the string?  (Head test of one
`replaceTicks` step.) -/
def ticksAt : List Char → Bool
  | a :: b :: c :: _ => a == S2P.tick && b == S2P.tick && c == S2P.tick
  | _ => false

end RoleMatch

/-! ## Order instances for the skill sort -/

instance : IsTotal (List Char) App.strLe :=
  ⟨by
    intro a b
    induction a generalizing b with
    | nil => exact Or.inl rfl
    | cons x as ih =>
      cases b with
      | nil => exact Or.inr rfl
      | cons y bs =>
        simp only [App.strLe, App.leStr]
        rcases Nat.lt_trichotomy x.toNat y.toNat with h | h | h
        · left; simp [h]
        · have h1 : ¬ x.toNat < y.toNat := by omega
          have h2 : ¬ y.toNat < x.toNat := by omega
          simp only [h1, h2, if_false, if_true]
          exact ih bs
        · right; simp [h]⟩

instance : IsTrans (List Char) App.strLe :=
  ⟨by
    intro a b c hab hbc
    induction a generalizing b c with
    | nil => rfl
    | cons x as ih =>
      cases b with
      | nil => simp [App.strLe, App.leStr] at hab
      | cons y bs =>
        cases c with
        | nil => simp [App.strLe, App.leStr] at hbc
        | cons z cs =>
          simp only [App.strLe, App.leStr] at hab hbc ⊢
          rcases Nat.lt_trichotomy x.toNat y.toNat with h1 | h1 | h1
          · rcases Nat.lt_trichotomy y.toNat z.toNat with h2 | h2 | h2
            · rw [if_pos (show x.toNat < z.toNat by omega)]
            · rw [if_pos (show x.toNat < z.toNat by omega)]
            · exact absurd hbc (by rw [if_neg (show ¬ y.toNat < z.toNat by omega), if_pos h2]; simp)
          · rcases Nat.lt_trichotomy y.toNat z.toNat with h2 | h2 | h2
            · rw [if_pos (show x.toNat < z.toNat by omega)]
            · rw [if_neg (show ¬ x.toNat < y.toNat by omega),
                  if_neg (show ¬ y.toNat < x.toNat by omega)] at hab
              rw [if_neg (show ¬ y.toNat < z.toNat by omega),
                  if_neg (show ¬ z.toNat < y.toNat by omega)] at hbc
              rw [if_neg (show ¬ x.toNat < z.toNat by omega),
                  if_neg (show ¬ z.toNat < x.toNat by omega)]
              exact ih bs cs hab hbc
            · exact absurd hbc (by rw [if_neg (show ¬ y.toNat < z.toNat by omega), if_pos h2]; simp)
          · exact absurd hab (by rw [if_neg (show ¬ x.toNat < y.toNat by omega), if_pos h1]; simp)⟩

/-! ## Theorems -/

section Theorems

open S2P

/-- The loop of `extractName` returns exactly the first line that is not
banned and has at most five tokens. -/
theorem extractNameGo_eq_find (l : List (List Char)) :
    App.extractNameGo l = l.find? App.qualifiesSpec := by
  induction l with
  | nil => rfl
  | cons x r ih =>
    by_cases hb : App.bannedLine x
    · simp [App.extractNameGo, App.qualifiesSpec, List.find?, hb, ih]
    · by_cases ht : (jsSplitWs x).length ≤ 5
      · simp [App.extractNameGo, App.qualifiesSpec, List.find?, hb, ht]
      · simp [App.extractNameGo, App.qualifiesSpec, List.find?, hb, ht, ih]

/-- Claim C5: for every input text, name extraction scans only the first 8
non-blank (trimmed) lines, skips lines containing resume/curriculum/vitae
(case-insensitively), `@`, or a digit, and returns the first remaining line
with at most five whitespace-separated tokens (verbatim, trimmed), or null
if no scanned line qualifies — i.e. it coincides with the specification's
description `extractNameSpec`. -/
theorem claim_C5 : ∀ text : List Char, App.extractName text = App.extractNameSpec text := by
  intro text
  unfold App.extractName App.extractNameSpec
  exact extractNameGo_eq_find _

/-- Consuming one `IN_PROGRESS` response leaves the loop where it was. -/
theorem pollLoop_inprog (l : List App.GetRes) :
    App.pollLoop (App.inProgRes :: l) = App.pollLoop l := rfl

/-- Polling consumes `IN_PROGRESS` responses one per iteration. -/
theorem pollLoop_replicate (n : Nat) (rest : List App.GetRes) :
    App.pollLoop (List.replicate n App.inProgRes ++ rest) = App.pollLoop rest := by
  induction n with
  | zero => rfl
  | succ m ih =>
    rw [List.replicate_succ, List.cons_append, pollLoop_inprog, ih]

/-- Claim C9: if the first reported status other than `IN_PROGRESS` is
neither `SUCCEEDED` nor `FAILED` (for example `PARTIAL_SUCCESS`), the
polling loop exits with no collected pages and the extraction returns the
empty string without raising. -/
theorem claim_C9 : ∀ (n : Nat) (r : App.GetRes) (rest : List App.GetRes),
    r.JobStatus ≠ "IN_PROGRESS".toList → r.JobStatus ≠ "SUCCEEDED".toList →
    r.JobStatus ≠ "FAILED".toList →
    App.pollLoop (List.replicate n App.inProgRes ++ r :: rest) = some (.ok []) ∧
    App.extractTextFromS3Pdf (List.replicate n App.inProgRes ++ r :: rest) =
      some (.ok []) := by
  intro n r rest h1 h2 h3
  have hp : App.pollLoop (r :: rest) = some (.ok []) := by
    simp only [App.pollLoop]
    rw [if_neg h3, if_neg h2, if_neg h1]
  refine ⟨by rw [pollLoop_replicate]; exact hp, ?_⟩
  unfold App.extractTextFromS3Pdf
  rw [pollLoop_replicate, hp]
  rfl

/-- Claim C9, witnessed at a concrete `PARTIAL_SUCCESS` response. -/
theorem claim_C9_witness :
    App.extractTextFromS3Pdf
      [App.inProgRes, ⟨"PARTIAL_SUCCESS".toList, none, none⟩] = some (.ok []) :=
  (claim_C9 1 ⟨"PARTIAL_SUCCESS".toList, none, none⟩ []
    (by decide) (by decide) (by decide)).2

/-- Draining the continuation chain collects every page, in order (each
link's token must be truthy, i.e. non-empty). -/
theorem drainPages_contChain (conts : List (List Char × List App.Block))
    (pages : List (List Char)) (htok : ∀ c ∈ conts, c.1 ≠ []) :
    App.drainPages (App.hdTok conts) (App.contChain conts) pages =
      some (pages ++ conts.map (fun c => App.blocksText c.2)) := by
  induction conts generalizing pages with
  | nil => simp [App.hdTok, App.contChain, App.drainPages, App.truthyOpt]
  | cons c rest ih =>
    obtain ⟨t, bs⟩ := c
    have htne : t ≠ [] := htok (t, bs) (by simp)
    show App.drainPages (some t)
        (⟨"SUCCEEDED".toList, some bs, App.hdTok rest⟩ :: App.contChain rest) pages = _
    unfold App.drainPages
    rw [if_pos (show App.truthyOpt (some t) = true by
      simp [App.truthyOpt, List.isEmpty_iff, htne])]
    rw [show (match (⟨"SUCCEEDED".toList, some bs, App.hdTok rest⟩ : App.GetRes) ::
            App.contChain rest with
          | [] => none
          | r :: rest' => App.drainPages r.NextToken rest' (pages ++ [App.pageText r]))
        = App.drainPages (App.hdTok rest) (App.contChain rest)
            (pages ++ [App.blocksText bs]) from rfl]
    rw [ih _ (fun c hc => htok c (by simp [hc]))]
    simp [App.pageText]

/-- Claim C3: for every successful asynchronous OCR job (any number of
`IN_PROGRESS` polls, then `SUCCEEDED` with a chain of continuation pages),
extraction follows the continuation token until exhausted, and the result
is the newline-join of the per-page line-joins in reported order; in
particular a job reporting `IN_PROGRESS` once then `SUCCEEDED` with two
pages linked by one token yields page-one lines, a newline, page-two
lines. -/
theorem claim_C3 :
    (∀ (n : Nat) (p0 : List App.Block) (conts : List (List Char × List App.Block)),
      (∀ c ∈ conts, c.1 ≠ []) →
      App.extractTextFromS3Pdf
        (List.replicate n App.inProgRes ++
          ⟨"SUCCEEDED".toList, some p0, App.hdTok conts⟩ :: App.contChain conts) =
        some (.ok (List.intercalate ['\n']
          (App.blocksText p0 :: conts.map (fun c => App.blocksText c.2))))) ∧
    App.extractTextFromS3Pdf
      [App.inProgRes,
       ⟨"SUCCEEDED".toList,
        some [⟨"LINE".toList, some "Alice Chen".toList⟩,
              ⟨"WORD".toList, some "Alice".toList⟩,
              ⟨"LINE".toList, some "Engineer".toList⟩],
        some "tok1".toList⟩,
       ⟨"SUCCEEDED".toList, some [⟨"LINE".toList, some "Java, AWS".toList⟩], none⟩] =
      some (.ok "Alice Chen\nEngineer\nJava, AWS".toList) := by
  constructor
  · intro n p0 conts htok
    unfold App.extractTextFromS3Pdf
    rw [pollLoop_replicate]
    rw [show App.pollLoop
          (⟨"SUCCEEDED".toList, some p0, App.hdTok conts⟩ :: App.contChain conts)
        = (App.drainPages (App.hdTok conts) (App.contChain conts)
            [App.blocksText p0]).map .ok from by
      simp [App.pollLoop, App.pageText]]
    rw [drainPages_contChain _ _ htok]
    rfl
  · rfl

end Theorems

/-- Claim C2: whenever the (trimmed, fence-stripped) primary text output of
a model response fails to parse as JSON, the evaluator does not raise: it
returns the degraded assessment with a null score, the processed raw text
as the summary, all four list fields empty, and level `"Unknown"`. -/
theorem claim_C2 : ∀ resp : RoleMatch.TitanResponse,
    RoleMatch.jsonParse (RoleMatch.processedText (RoleMatch.titanTextOut resp)) = none →
    RoleMatch.assessmentOfResponse resp =
      .obj [("fitScore".toList, .null),
            ("summary".toList, .str (RoleMatch.processedText (RoleMatch.titanTextOut resp))),
            ("keyStrengths".toList, .arr []),
            ("concerns".toList, .arr []),
            ("skillsMatched".toList, .arr []),
            ("skillsMissing".toList, .arr []),
            ("recommendedLevel".toList, .str "Unknown".toList)] := by
  intro resp h
  unfold RoleMatch.assessmentOfResponse RoleMatch.parseOutputText
  rw [h]
  rfl

/-- Claim C2, witnessed at a plain-prose model response. -/
theorem claim_C2_witness :
    RoleMatch.assessmentOfResponse
      ⟨[⟨some "The candidate looks strong but I cannot produce JSON.".toList⟩]⟩ =
      .obj [("fitScore".toList, .null),
            ("summary".toList,
             .str (RoleMatch.processedText (RoleMatch.titanTextOut
               ⟨[⟨some "The candidate looks strong but I cannot produce JSON.".toList⟩]⟩))),
            ("keyStrengths".toList, .arr []),
            ("concerns".toList, .arr []),
            ("skillsMatched".toList, .arr []),
            ("skillsMissing".toList, .arr []),
            ("recommendedLevel".toList, .str "Unknown".toList)] :=
  claim_C2 ⟨[⟨some "The candidate looks strong but I cannot produce JSON.".toList⟩]⟩ rfl

/-- Claim C10: when the primary text output field is absent, the evaluator
substitutes `"\x7b\x7d"`, the strict parse succeeds, and the returned
assessment is the empty object — carrying none of the schema's fields —
rather than the degraded fallback assessment. -/
theorem claim_C10 : ∀ resp : RoleMatch.TitanResponse,
    resp.results.head?.bind (fun r => r.outputText) = none →
    RoleMatch.titanTextOut resp = "\x7b\x7d".toList ∧
    RoleMatch.jsonParse (RoleMatch.processedText (RoleMatch.titanTextOut resp)) =
      some (.obj []) ∧
    RoleMatch.assessmentOfResponse resp = .obj [] ∧
    RoleMatch.lookupField (RoleMatch.assessmentOfResponse resp) "fitScore".toList = none ∧
    RoleMatch.lookupField (RoleMatch.assessmentOfResponse resp) "summary".toList = none ∧
    RoleMatch.lookupField (RoleMatch.assessmentOfResponse resp) "keyStrengths".toList = none ∧
    RoleMatch.lookupField (RoleMatch.assessmentOfResponse resp) "concerns".toList = none ∧
    RoleMatch.lookupField (RoleMatch.assessmentOfResponse resp) "skillsMatched".toList = none ∧
    RoleMatch.lookupField (RoleMatch.assessmentOfResponse resp) "skillsMissing".toList = none ∧
    RoleMatch.lookupField (RoleMatch.assessmentOfResponse resp) "recommendedLevel".toList = none ∧
    RoleMatch.assessmentOfResponse resp ≠
      RoleMatch.fallbackAssessment (RoleMatch.processedText (RoleMatch.titanTextOut resp)) := by
  intro resp h
  have ht : RoleMatch.titanTextOut resp = "\x7b\x7d".toList := by
    unfold RoleMatch.titanTextOut
    rw [h]
    rfl
  have ha : RoleMatch.assessmentOfResponse resp = .obj [] := by
    unfold RoleMatch.assessmentOfResponse
    rw [ht]
    rfl
  refine ⟨ht, ?_, ha, ?_, ?_, ?_, ?_, ?_, ?_, ?_, ?_⟩
  · rw [ht]; rfl
  · rw [ha]; rfl
  · rw [ha]; rfl
  · rw [ha]; rfl
  · rw [ha]; rfl
  · rw [ha]; rfl
  · rw [ha]; rfl
  · rw [ha]; rfl
  · rw [ha]
    intro hcontra
    simp [RoleMatch.fallbackAssessment] at hcontra

/-- Claim C10, witnessed at a response with an empty `results` array. -/
theorem claim_C10_witness :
    RoleMatch.assessmentOfResponse ⟨[]⟩ = .obj [] ∧
    RoleMatch.lookupField (RoleMatch.assessmentOfResponse ⟨[]⟩) "fitScore".toList = none :=
  ⟨(claim_C10 ⟨[]⟩ rfl).2.2.1, (claim_C10 ⟨[]⟩ rfl).2.2.2.1⟩

/-- Concatenating stream batches concatenates their effects. -/
theorem fitHandler_append (env : RoleMatch.FitEnv) (role : List Char)
    (l₁ l₂ : List RoleMatch.StreamRecord) :
    RoleMatch.handler env role (l₁ ++ l₂) =
      ((RoleMatch.handler env role l₁).1 ++ (RoleMatch.handler env role l₂).1,
       (RoleMatch.handler env role l₁).2 ++ (RoleMatch.handler env role l₂).2) := by
  induction l₁ with
  | nil => simp [RoleMatch.handler]
  | cons r rest ih => simp [RoleMatch.handler, ih]

/-- Claim C6: the fit handler performs zero model invocations and zero
store updates for any stream record that is not an insert, whose new-row
snapshot already carries `aiFit`, or whose snapshot lacks the candidate
identifier or the raw text; in any batch, such a record contributes no
effects at all. -/
theorem claim_C6 : ∀ (env : RoleMatch.FitEnv) (role : List Char)
    (r : RoleMatch.StreamRecord) (rs₁ rs₂ : List RoleMatch.StreamRecord),
    (r.eventName ≠ "INSERT".toList ∨
     (r.newImage.getD ⟨none, none, none⟩).aiFit.isSome = true ∨
     (r.newImage.getD ⟨none, none, none⟩).candidateId = none ∨
     (r.newImage.getD ⟨none, none, none⟩).rawText = none) →
    RoleMatch.processFitRecord env role r = ([], []) ∧
    RoleMatch.handler env role (rs₁ ++ r :: rs₂) =
      RoleMatch.handler env role (rs₁ ++ rs₂) := by
  intro env role r rs₁ rs₂ h
  have hskip : RoleMatch.processFitRecord env role r = ([], []) := by
    unfold RoleMatch.processFitRecord
    by_cases h1 : r.eventName ≠ "INSERT".toList
    · rw [if_pos h1]
    · rw [if_neg h1]
      by_cases h2 : (!App.truthyOpt (r.newImage.getD ⟨none, none, none⟩).candidateId ||
                     !App.truthyOpt (r.newImage.getD ⟨none, none, none⟩).rawText) = true
      · rw [if_pos h2]
      · rw [if_neg h2]
        have h3 : (r.newImage.getD ⟨none, none, none⟩).aiFit.isSome = true := by
          rcases h with h | h | h | h
          · exact absurd h h1
          · exact h
          · exfalso
            apply h2
            rw [h]
            rfl
          · exfalso
            apply h2
            rw [h]
            simp [App.truthyOpt]
        rw [if_pos h3]
  refine ⟨hskip, ?_⟩
  rw [fitHandler_append, fitHandler_append]
  have : RoleMatch.handler env role (r :: rs₂) = RoleMatch.handler env role rs₂ := by
    show ((RoleMatch.processFitRecord env role r).1 ++ (RoleMatch.handler env role rs₂).1,
          (RoleMatch.processFitRecord env role r).2 ++ (RoleMatch.handler env role rs₂).2) = _
    rw [hskip]
    simp
  rw [this]

/-- Claim C6, witnessed at an insert whose snapshot already carries a fit
assessment: zero model calls and zero updates. -/
theorem claim_C6_witness :
    RoleMatch.processFitRecord ⟨fun _ => .error (.exn 0)⟩ "Backend Engineer".toList
      ⟨"INSERT".toList, some ⟨some "cand-1".toList, some "raw resume text".toList,
        some "prior-fit".toList⟩⟩ = ([], []) ∧
    RoleMatch.handler ⟨fun _ => .error (.exn 0)⟩ "Backend Engineer".toList
      ([] ++ ⟨"INSERT".toList, some ⟨some "cand-1".toList, some "raw resume text".toList,
        some "prior-fit".toList⟩⟩ :: []) =
      RoleMatch.handler ⟨fun _ => .error (.exn 0)⟩ "Backend Engineer".toList ([] ++ []) :=
  claim_C6 ⟨fun _ => .error (.exn 0)⟩ "Backend Engineer".toList
    ⟨"INSERT".toList, some ⟨some "cand-1".toList, some "raw resume text".toList,
      some "prior-fit".toList⟩⟩ [] [] (Or.inr (Or.inl rfl))

/-- The skill vocabulary has no duplicate entries. -/
theorem knownSkills_nodup : App.knownSkills.Nodup := by decide

/-- Claim C4: skill extraction returns exactly the subset of the fixed
vocabulary whose entries occur case-insensitively as substrings of the
text; the result has no duplicates and is sorted lexicographically
ascending; it is idempotent under re-canonicalisation and depends only on
which vocabulary entries match (not on where or how often they occur in
the input); and on `"I used Java and Kafka with AWS"` it is exactly
`["AWS", "Java", "Kafka"]`. -/
theorem claim_C4 :
    (∀ (t s : List Char),
      s ∈ App.extractSkills t ↔ s ∈ App.knownSkills ∧ App.skillMatches s t = true) ∧
    (∀ t : List Char, (App.extractSkills t).Nodup) ∧
    (∀ t : List Char, List.Sorted App.strLe (App.extractSkills t)) ∧
    (∀ t : List Char,
      List.insertionSort App.strLe (App.extractSkills t) = App.extractSkills t) ∧
    (∀ t u : List Char,
      (∀ s ∈ App.knownSkills, App.skillMatches s t = App.skillMatches s u) →
      App.extractSkills t = App.extractSkills u) ∧
    App.extractSkills "I used Java and Kafka with AWS".toList =
      ["AWS".toList, "Java".toList, "Kafka".toList] := by
  refine ⟨?_, ?_, ?_, ?_, ?_, ?_⟩
  · intro t s
    unfold App.extractSkills
    rw [List.Perm.mem_iff (List.perm_insertionSort _ _), List.mem_filter]
  · intro t
    exact (List.Perm.nodup_iff (List.perm_insertionSort _ _)).mpr
      (knownSkills_nodup.filter _)
  · intro t
    exact List.sorted_insertionSort _ _
  · intro t
    exact (List.sorted_insertionSort _ _).insertionSort_eq
  · intro t u h
    unfold App.extractSkills
    exact congrArg _ (List.filter_congr (fun s hs => h s hs))
  · decide

/-- Claim C4, witnessed: two texts in which the same skills occur, in
different order and case, extract to the same canonical list. -/
theorem claim_C4_witness :
    App.extractSkills "Kafka then Java".toList = App.extractSkills "JAVA KAFKA".toList :=
  claim_C4.2.2.2.2.1 "Kafka then Java".toList "JAVA KAFKA".toList (by decide)

/-- Claim C1 counterexample: the claim that an exception thrown while
processing one record — by any component, including malformed input — is
caught at the per-record boundary and does not prevent the remaining
notifications from being processed is FALSE.  The object-key decoding at
app.js line 184 runs before the `try` of line 188: in a batch of three in
which the second record's key is a malformed percent-encoding (`"%"`), the
`URIError` propagates, the invocation rejects, and the third record is
never written even though every collaborator call would have succeeded. -/
theorem claim_C1_counterexample :
    ((App.handler App.envAllOk
        [⟨"bkt".toList, "first.pdf".toList⟩, ⟨"bkt".toList, "%".toList⟩,
         ⟨"bkt".toList, "third.pdf".toList⟩]).1.map (fun d => d.fileKey) =
      ["first.pdf".toList]) ∧
    (App.handler App.envAllOk
        [⟨"bkt".toList, "first.pdf".toList⟩, ⟨"bkt".toList, "%".toList⟩,
         ⟨"bkt".toList, "third.pdf".toList⟩]).2 = .error .uriError := by
  exact ⟨rfl, rfl⟩

/-- Claim C1 (amended): an exception thrown inside the guarded per-record
region — extraction, field parsing, or the store write — is caught at the
per-record boundary and does not prevent the remaining notifications from
being processed; in particular, in a batch of 3 whose keys all decode and
where the 2nd record throws during extraction, the 1st and 3rd are each
written to the store exactly once, and the handler completes normally.
(An exception from decoding a record's object key, by contrast, occurs
before the guard and aborts the remaining records — see the
counterexample.) -/
theorem claim_C1 : ∀ (env : App.IngestEnv) (r1 r2 r3 : App.S3Record)
    (k1 k2 k3 t1 t3 : List Char) (e : App.JsError),
    App.decodeURIComponent (App.replacePlus r1.key) = .ok k1 →
    App.decodeURIComponent (App.replacePlus r2.key) = .ok k2 →
    App.decodeURIComponent (App.replacePlus r3.key) = .ok k3 →
    env.extractText r1.bucket k1 = .ok t1 →
    env.extractText r2.bucket k2 = .error e →
    env.extractText r3.bucket k3 = .ok t3 →
    (∀ d, env.putItem d = .ok ()) →
    (App.handler env [r1, r2, r3]).1 =
      [App.itemFor env 0 r1.bucket k1 t1, App.itemFor env 1 r3.bucket k3 t3] ∧
    (App.handler env [r1, r2, r3]).2 = .ok ⟨200, "OK".toList⟩ ∧
    (env.randomUUID 0 ≠ env.randomUUID 1 →
      ((App.handler env [r1, r2, r3]).1.map (fun d => d.candidateId)).count
          (env.randomUUID 0) = 1 ∧
      ((App.handler env [r1, r2, r3]).1.map (fun d => d.candidateId)).count
          (env.randomUUID 1) = 1) := by
  intro env r1 r2 r3 k1 k2 k3 t1 t3 e hd1 hd2 hd3 hx1 hx2 hx3 hput
  have hw : App.handler env [r1, r2, r3] =
      ([App.itemFor env 0 r1.bucket k1 t1, App.itemFor env 1 r3.bucket k3 t3],
       .ok ⟨200, "OK".toList⟩) := by
    show App.processRecords env 0 [r1, r2, r3] = _
    simp only [App.processRecords, hd1, hd2, hd3, hx1, hx2, hx3, hput]
  have hids : (App.handler env [r1, r2, r3]).1.map (fun d => d.candidateId) =
      [env.randomUUID 0, env.randomUUID 1] := by
    rw [hw]
    rfl
  refine ⟨by rw [hw], by rw [hw], fun hne => ⟨?_, ?_⟩⟩
  · rw [hids]
    simp [List.count_cons, List.count_nil, hne.symm]
  · rw [hids]
    simp [List.count_cons, List.count_nil, hne]

/-- Claim C1 (amended), witnessed: a concrete batch of three decodable
keys where extraction throws exactly on the second; the first and third
candidates are written exactly once each. -/
theorem claim_C1_witness :
    (App.handler App.envExtFails
        [⟨"b".toList, "one.pdf".toList⟩, ⟨"b".toList, "bad.pdf".toList⟩,
         ⟨"b".toList, "two.pdf".toList⟩]).1 =
      [App.itemFor App.envExtFails 0 "b".toList "one.pdf".toList "Jane Doe rawtext".toList,
       App.itemFor App.envExtFails 1 "b".toList "two.pdf".toList "Jane Doe rawtext".toList] ∧
    (App.handler App.envExtFails
        [⟨"b".toList, "one.pdf".toList⟩, ⟨"b".toList, "bad.pdf".toList⟩,
         ⟨"b".toList, "two.pdf".toList⟩]).2 = .ok ⟨200, "OK".toList⟩ ∧
    (((App.handler App.envExtFails
        [⟨"b".toList, "one.pdf".toList⟩, ⟨"b".toList, "bad.pdf".toList⟩,
         ⟨"b".toList, "two.pdf".toList⟩]).1.map (fun d => d.candidateId)).count
        (App.envExtFails.randomUUID 0) = 1 ∧
     ((App.handler App.envExtFails
        [⟨"b".toList, "one.pdf".toList⟩, ⟨"b".toList, "bad.pdf".toList⟩,
         ⟨"b".toList, "two.pdf".toList⟩]).1.map (fun d => d.candidateId)).count
        (App.envExtFails.randomUUID 1) = 1) := by
  have h := claim_C1 App.envExtFails
    ⟨"b".toList, "one.pdf".toList⟩ ⟨"b".toList, "bad.pdf".toList⟩
    ⟨"b".toList, "two.pdf".toList⟩
    "one.pdf".toList "bad.pdf".toList "two.pdf".toList
    "Jane Doe rawtext".toList "Jane Doe rawtext".toList (.exn 7)
    rfl rfl rfl rfl rfl rfl (fun _ => rfl)
  exact ⟨h.1, h.2.1, h.2.2 (by decide)⟩

/-- `containsList` decides contiguous-substring occurrence. -/
theorem containsList_iff (p : List Char) : ∀ s : List Char,
    S2P.containsList p s = true ↔ p <:+: s := by
  intro s
  induction s with
  | nil =>
    simp [S2P.containsList, List.isEmpty_iff]
  | cons c r ih =>
    simp only [S2P.containsList, Bool.or_eq_true, List.isPrefixOf_iff_prefix, ih,
      List.infix_cons_iff]

/-- A pattern absent from `c :: r` is absent from `r`. -/
theorem containsList_tail {p : List Char} {c : Char} {r : List Char}
    (h : S2P.containsList p (c :: r) = false) : S2P.containsList p r = false := by
  by_contra hc
  rw [Bool.not_eq_false] at hc
  have h2 : S2P.containsList p (c :: r) = true := by
    simp [S2P.containsList, hc]
  rw [h2] at h
  exact absurd h (by simp)

/-- Trimming yields a contiguous substring of the original. -/
theorem trimStr_within (s : List Char) : S2P.trimStr s <:+: s := by
  have h1 : s.dropWhile S2P.isJsWs <:+ s := List.dropWhile_suffix _
  have h2 : (s.dropWhile S2P.isJsWs).reverse.dropWhile S2P.isJsWs <:+
      (s.dropWhile S2P.isJsWs).reverse := List.dropWhile_suffix _
  have h3 : S2P.trimStr s <+: s.dropWhile S2P.isJsWs := by
    rw [← List.reverse_suffix]
    unfold S2P.trimStr
    rw [List.reverse_reverse]
    exact h2
  exact h3.isInfix.trans h1.isInfix

/-- A string beginning with three backticks contains the fence marker. -/
theorem containsList_ticks_head (rest : List Char) :
    S2P.containsList "```".toList (S2P.tick :: S2P.tick :: S2P.tick :: rest) = true := by
  rw [containsList_iff]
  exact ⟨[], rest, rfl⟩

/-- A fence match at the head forces three leading backticks (and at least
six characters). -/
theorem fenceAt_start {l : List Char} (h : RoleMatch.fenceAt l = true) :
    ∃ d e f r, l = S2P.tick :: S2P.tick :: S2P.tick :: d :: e :: f :: r ∧
      S2P.lowEq d 'j' = true := by
  match l with
  | [] => simp [RoleMatch.fenceAt] at h
  | [a] => simp [RoleMatch.fenceAt] at h
  | [a, b] => simp [RoleMatch.fenceAt] at h
  | [a, b, c] => simp [RoleMatch.fenceAt] at h
  | [a, b, c, d] => simp [RoleMatch.fenceAt] at h
  | [a, b, c, d, e] => simp [RoleMatch.fenceAt] at h
  | a :: b :: c :: d :: e :: f :: r =>
    simp only [RoleMatch.fenceAt, RoleMatch.isFence6, Bool.and_eq_true,
      beq_iff_eq] at h
    obtain ⟨⟨⟨⟨⟨-, -⟩, hj⟩, ha⟩, hb⟩, hc⟩ := h
    subst ha; subst hb; subst hc
    exact ⟨d, e, f, r, rfl, hj⟩

/-- A backtick-triple match at the head forces three leading backticks. -/
theorem ticksAt_start {l : List Char} (h : RoleMatch.ticksAt l = true) :
    ∃ r, l = S2P.tick :: S2P.tick :: S2P.tick :: r := by
  match l with
  | [] => simp [RoleMatch.ticksAt] at h
  | [a] => simp [RoleMatch.ticksAt] at h
  | [a, b] => simp [RoleMatch.ticksAt] at h
  | a :: b :: c :: r =>
    simp only [RoleMatch.ticksAt, Bool.and_eq_true, beq_iff_eq] at h
    obtain ⟨⟨ha, hb⟩, hc⟩ := h
    subst ha; subst hb; subst hc
    exact ⟨r, rfl⟩

/-- When no fence matches at the head, one `replaceFence` step copies the
head character. -/
theorem replaceFence_cons_ne (x : Char) (r : List Char)
    (hf : RoleMatch.fenceAt (x :: r) = false) :
    RoleMatch.replaceFence (x :: r) = x :: RoleMatch.replaceFence r := by
  match r with
  | [] => rfl
  | [b] => rfl
  | [b, c] => rfl
  | [b, c, d] => rfl
  | [b, c, d, e] => rfl
  | [b, c, d, e, f] =>
    have : RoleMatch.isFence6 x b c d e f = false := hf
    simp [RoleMatch.replaceFence, this]
  | b :: c :: d :: e :: f :: g :: rest =>
    have : RoleMatch.isFence6 x b c d e f = false := hf
    simp [RoleMatch.replaceFence, this]

/-- When no backtick triple starts at the head, one `replaceTicks` step
copies the head character. -/
theorem replaceTicks_cons_ne (x : Char) (r : List Char)
    (hf : RoleMatch.ticksAt (x :: r) = false) :
    RoleMatch.replaceTicks (x :: r) = x :: RoleMatch.replaceTicks r := by
  match r with
  | [] => rfl
  | [b] => rfl
  | b :: c :: rest =>
    have : (x == S2P.tick && b == S2P.tick && c == S2P.tick) = false := hf
    simp [RoleMatch.replaceTicks, this]

/-- `replaceFence` leaves `s ++ "\x60\x60\x60"` unchanged when `s` contains
no fence marker: the fence pattern needs `jso` after the backticks, which
the trailing backtick run cannot supply. -/
theorem replaceFence_no_match : ∀ s : List Char,
    S2P.containsList "```".toList s = false →
    RoleMatch.replaceFence (s ++ "```".toList) = s ++ "```".toList := by
  intro s
  induction s with
  | nil => intro _; rfl
  | cons x s' ih =>
    intro h
    rcases Bool.eq_false_or_eq_true (RoleMatch.fenceAt ((x :: s') ++ "```".toList)) with hf | hf
    · exfalso
      obtain ⟨d, e, f, r, hr, hdj⟩ := fenceAt_start hf
      rw [List.cons_append] at hr
      injection hr with h1 h2
      subst h1
      rcases s' with _ | ⟨y, _ | ⟨z, _ | ⟨w, s4⟩⟩⟩
      · have hlen := congrArg List.length h2
        simp at hlen
      · have hlen := congrArg List.length h2
        simp at hlen
      · rw [List.cons_append, List.cons_append, List.nil_append] at h2
        injection h2 with hy h3
        injection h3 with hz h4
        injection h4 with hd h5
        subst hd
        exact absurd hdj (by decide)
      · rw [List.cons_append, List.cons_append] at h2
        injection h2 with hy h3
        injection h3 with hz h4
        subst hy; subst hz
        rw [containsList_ticks_head] at h
        exact absurd h (by simp)
    · rw [List.cons_append] at hf ⊢
      rw [replaceFence_cons_ne x _ hf, ih (containsList_tail h)]

/-- `replaceTicks` maps `s ++ "\x60\x60\x60"` back to `s` when `s` contains
no fence marker (even when `s` ends in one or two backticks, the global
replacement consumes exactly the appended closer). -/
theorem replaceTicks_drain : ∀ s : List Char,
    S2P.containsList "```".toList s = false →
    RoleMatch.replaceTicks (s ++ "```".toList) = s := by
  intro s
  induction s with
  | nil => intro _; rfl
  | cons x s' ih =>
    intro h
    rcases Bool.eq_false_or_eq_true (RoleMatch.ticksAt ((x :: s') ++ "```".toList)) with hf | hf
    · obtain ⟨r, hr⟩ := ticksAt_start hf
      rw [List.cons_append] at hr
      injection hr with h1 h2
      subst h1
      rcases s' with _ | ⟨y, _ | ⟨z, s3⟩⟩
      · rfl
      · injection h2 with hy _
        subst hy
        rfl
      · rw [List.cons_append, List.cons_append] at h2
        injection h2 with hy h3
        injection h3 with hz _
        subst hy; subst hz
        rw [containsList_ticks_head] at h
        exact absurd h (by simp)
    · rw [List.cons_append] at hf ⊢
      rw [replaceTicks_cons_ne x _ hf, ih (containsList_tail h)]

/-- Stripping the fence pattern from a wrapped payload removes exactly the
opener. -/
theorem replaceFence_wrap (s : List Char)
    (h : S2P.containsList "```".toList s = false) :
    RoleMatch.replaceFence (RoleMatch.wrapFence s) = s ++ "```".toList := by
  have hstep : RoleMatch.replaceFence (RoleMatch.wrapFence s) =
      RoleMatch.replaceFence (s ++ "```".toList) := rfl
  rw [hstep]
  exact replaceFence_no_match s h

/-- A string whose first and last characters are not whitespace is its own
trim. -/
theorem trimStr_eq_of {l : List Char} (h1 : l.dropWhile S2P.isJsWs = l)
    (h2 : l.reverse.dropWhile S2P.isJsWs = l.reverse) : S2P.trimStr l = l := by
  unfold S2P.trimStr
  rw [h1, h2, List.reverse_reverse]

/-- A fence-wrapped payload is already trimmed (it starts and ends with a
backtick). -/
theorem trim_wrapFence (s : List Char) :
    S2P.trimStr (RoleMatch.wrapFence s) = RoleMatch.wrapFence s := by
  apply trimStr_eq_of
  · show (S2P.tick :: ("``json".toList ++ (s ++ "```".toList))).dropWhile S2P.isJsWs = _
    rw [List.dropWhile_cons, if_neg (by decide)]
    rfl
  · have hr : (RoleMatch.wrapFence s).reverse =
        S2P.tick :: S2P.tick :: S2P.tick :: (s.reverse ++ "```json".toList.reverse) := by
      unfold RoleMatch.wrapFence
      rw [List.reverse_append, List.reverse_append]
      rw [show ("```".toList).reverse = [S2P.tick, S2P.tick, S2P.tick] from rfl]
      simp [List.append_assoc]
    rw [hr, List.dropWhile_cons, if_neg (by decide)]

/-- A wrapped payload starts with the fence marker. -/
theorem startsTicks_wrap (s : List Char) :
    RoleMatch.startsTicks (RoleMatch.wrapFence s) = true := rfl

/-- A payload containing no fence marker does not start with one after
trimming. -/
theorem startsTicks_of_trim {s : List Char}
    (h : S2P.containsList "```".toList s = false) :
    RoleMatch.startsTicks (S2P.trimStr s) = false := by
  rcases Bool.eq_false_or_eq_true (RoleMatch.startsTicks (S2P.trimStr s)) with hf | hf
  · exfalso
    have hp : "```".toList <+: S2P.trimStr s := List.isPrefixOf_iff_prefix.mp hf
    have hi : "```".toList <:+: s := hp.isInfix.trans (trimStr_within s)
    rw [← containsList_iff] at hi
    rw [hi] at h
    exact absurd h (by simp)
  · exact hf

/-- The preprocessing of a wrapped fence-free payload yields exactly the
trimmed payload. -/
theorem processedText_wrap (s : List Char)
    (h : S2P.containsList "```".toList s = false) :
    RoleMatch.processedText (RoleMatch.wrapFence s) = S2P.trimStr s := by
  unfold RoleMatch.processedText
  rw [trim_wrapFence s, startsTicks_wrap s, if_pos rfl]
  rw [replaceFence_wrap s h, replaceTicks_drain s h]

/-- The preprocessing of an unwrapped fence-free payload is just a trim. -/
theorem processedText_plain (s : List Char)
    (h : S2P.containsList "```".toList s = false) :
    RoleMatch.processedText s = S2P.trimStr s := by
  unfold RoleMatch.processedText
  rw [startsTicks_of_trim h, if_neg (by simp)]

/-- Claim C7 counterexample: the claim that for every valid JSON payload,
the fence-wrapped response parses to exactly the same assessment as the
unwrapped response is FALSE: the global fence-stripping replacements also
delete fence-marker sequences occurring INSIDE the payload.  The payload
`"a\x60\x60\x60b"` (a JSON string containing three backticks) is valid
JSON, yet its wrapped form parses to `"ab"`. -/
theorem claim_C7_counterexample :
    RoleMatch.jsonParse (S2P.trimStr "\"a```b\"".toList) =
      some (.str "a```b".toList) ∧
    RoleMatch.parseOutputText "\"a```b\"".toList = .str "a```b".toList ∧
    RoleMatch.parseOutputText (RoleMatch.wrapFence "\"a```b\"".toList) =
      .str "ab".toList ∧
    RoleMatch.parseOutputText (RoleMatch.wrapFence "\"a```b\"".toList) ≠
      RoleMatch.parseOutputText "\"a```b\"".toList := by
  refine ⟨rfl, rfl, rfl, ?_⟩
  intro h
  exact absurd (RoleMatch.Json.str.inj h) (by decide)

/-- Claim C7 (amended): for every valid JSON payload that contains no
fence-marker sequence (`\x60\x60\x60`), the response wrapped in code-fence
markers is parsed by the evaluator to exactly the same assessment as the
unwrapped response, namely the parse of the trimmed payload. -/
theorem claim_C7 : ∀ (s : List Char) (a : RoleMatch.Json),
    S2P.containsList "```".toList s = false →
    RoleMatch.jsonParse (S2P.trimStr s) = some a →
    RoleMatch.parseOutputText (RoleMatch.wrapFence s) = a ∧
    RoleMatch.parseOutputText s = a := by
  intro s a hno hp
  unfold RoleMatch.parseOutputText
  rw [processedText_wrap s hno, processedText_plain s hno, hp]
  exact ⟨rfl, rfl⟩

/-- Claim C7 (amended), witnessed at a concrete fence-free JSON payload. -/
theorem claim_C7_witness :
    RoleMatch.parseOutputText (RoleMatch.wrapFence "\x7b\"fitScore\": 80\x7d".toList) =
      .obj [("fitScore".toList, .num "80".toList)] ∧
    RoleMatch.parseOutputText "\x7b\"fitScore\": 80\x7d".toList =
      .obj [("fitScore".toList, .num "80".toList)] :=
  claim_C7 "\x7b\"fitScore\": 80\x7d".toList
    (.obj [("fitScore".toList, .num "80".toList)]) (by decide) rfl

/-- `takeWhile` passes over a satisfying block. -/
theorem takeWhile_append_all {p : Char → Bool} :
    ∀ (b rest : List Char), (∀ c ∈ b, p c = true) →
      (b ++ rest).takeWhile p = b ++ rest.takeWhile p := by
  intro b
  induction b with
  | nil => intro rest _; simp
  | cons x xs ih =>
    intro rest hb
    rw [List.cons_append, List.takeWhile_cons, if_pos (hb x (by simp)),
      ih rest (fun c hc => hb c (by simp [hc])), List.cons_append]

/-- `takeWhile` stops exactly at the first failing character. -/
theorem takeWhile_append_stop {p : Char → Bool} (a : List Char) (x : Char)
    (rest : List Char) (ha : ∀ c ∈ a, p c = true) (hx : p x = false) :
    (a ++ x :: rest).takeWhile p = a := by
  rw [takeWhile_append_all a _ ha, List.takeWhile_cons, hx]
  simp

/-- `dropWhile` stops exactly at the first failing character. -/
theorem dropWhile_append_stop {p : Char → Bool} (a : List Char) (x : Char)
    (rest : List Char) (ha : ∀ c ∈ a, p c = true) (hx : p x = false) :
    (a ++ x :: rest).dropWhile p = x :: rest := by
  induction a with
  | nil => simp [List.dropWhile_cons, hx]
  | cons y ys ih =>
    rw [List.cons_append, List.dropWhile_cons, if_pos (ha y (by simp))]
    exact ih (fun c hc => ha c (by simp [hc]))

/-- Inside the satisfying run, `take` commutes with `takeWhile`. -/
theorem take_takeWhile {p : Char → Bool} :
    ∀ (l : List Char) (k : Nat), k ≤ (l.takeWhile p).length →
      l.take k = (l.takeWhile p).take k := by
  intro l
  induction l with
  | nil => intro k _; simp
  | cons x xs ih =>
    intro k hk
    rcases Bool.eq_false_or_eq_true (p x) with hx | hx
    · rw [List.takeWhile_cons, hx] at hk ⊢
      rw [if_pos rfl] at hk ⊢
      cases k with
      | zero => simp
      | succ k' =>
        simp only [List.take_succ_cons]
        simp only [List.length_cons, Nat.succ_le_succ_iff] at hk
        rw [ih k' hk]
    · rw [List.takeWhile_cons, hx] at hk ⊢
      rw [if_neg (by simp)] at hk ⊢
      simp at hk
      subst hk
      simp

/-- Soundness of the backtracking domain search. -/
theorem tryDom_sound (r1 : List Char) : ∀ (k0 k : Nat) (t : List Char),
    App.tryDom r1 k0 = some (k, t) →
    r1.get? k = some '.' ∧ t = (r1.drop (k + 1)).takeWhile App.isAlphaCh ∧
      2 ≤ t.length ∧ 1 ≤ k ∧ k ≤ k0 := by
  intro k0
  induction k0 with
  | zero => intro k t h; simp [App.tryDom] at h
  | succ k' ih =>
    intro k t h
    unfold App.tryDom at h
    by_cases hg : r1.get? (k' + 1) = some '.'
    · rw [if_pos hg] at h
      by_cases h2 : 2 ≤ ((r1.drop (k' + 2)).takeWhile App.isAlphaCh).length
      · rw [if_pos h2] at h
        simp only [Option.orElse] at h
        injection h with h'
        injection h' with hk ht
        subst hk
        subst ht
        exact ⟨hg, rfl, h2, by omega, le_refl _⟩
      · rw [if_neg h2] at h
        simp only [Option.orElse] at h
        obtain ⟨hdot, ht, hl, hk1, hkb⟩ := ih k t h
        exact ⟨hdot, ht, hl, hk1, by omega⟩
    · rw [if_neg hg] at h
      simp only [Option.orElse] at h
      obtain ⟨hdot, ht, hl, hk1, hkb⟩ := ih k t h
      exact ⟨hdot, ht, hl, hk1, by omega⟩

/-- Completeness of the backtracking domain search: if it fails, no
admissible split exists. -/
theorem tryDom_none (r1 : List Char) : ∀ (k0 : Nat),
    App.tryDom r1 k0 = none → ∀ k, 1 ≤ k → k ≤ k0 →
    ¬(r1.get? k = some '.' ∧
      2 ≤ ((r1.drop (k + 1)).takeWhile App.isAlphaCh).length) := by
  intro k0
  induction k0 with
  | zero => intro _ k hk1 hk0; omega
  | succ k' ih =>
    intro h k hk1 hk0
    by_cases hg : r1.get? (k' + 1) = some '.'
    · by_cases h2 : 2 ≤ ((r1.drop (k' + 2)).takeWhile App.isAlphaCh).length
      · exfalso
        unfold App.tryDom at h
        rw [if_pos hg, if_pos h2] at h
        simp [Option.orElse] at h
      · have htail : App.tryDom r1 k' = none := by
          unfold App.tryDom at h
          rw [if_pos hg, if_neg h2] at h
          simpa [Option.orElse] using h
        rcases Nat.lt_or_ge k (k' + 1) with hlt | hge
        · exact ih htail k hk1 (by omega)
        · have hk : k = k' + 1 := by omega
          subst hk
          rintro ⟨-, hlen⟩
          exact h2 (by simpa using hlen)
    · have htail : App.tryDom r1 k' = none := by
        unfold App.tryDom at h
        rw [if_neg hg] at h
        simpa [Option.orElse] using h
      rcases Nat.lt_or_ge k (k' + 1) with hlt | hge
      · exact ih htail k hk1 (by omega)
      · have hk : k = k' + 1 := by omega
        subst hk
        rintro ⟨hdot, -⟩
        exact hg hdot

/-- Soundness of the positional email matcher: a match is a well-formed
email and a prefix of the scanned suffix. -/
theorem matchEmailAt_sound {l e : List Char} (h : App.matchEmailAt l = some e) :
    App.IsEmail e ∧ e <+: l := by
  unfold App.matchEmailAt at h
  by_cases ha : (l.takeWhile App.classA).isEmpty = true
  · rw [if_pos ha] at h
    exact absurd h (by simp)
  · rw [if_neg ha] at h
    cases hd : l.dropWhile App.classA with
    | nil => rw [hd] at h; exact absurd h (by simp)
    | cons c r1 =>
      rw [hd] at h
      have h' : (if (c == '@') = true then
          match App.tryDom r1 ((List.takeWhile App.classB r1).length - 1) with
          | some (k, t) =>
            some (List.takeWhile App.classA l ++ '@' :: (List.take k r1 ++ '.' :: t))
          | none => none
        else none) = some e := h
      clear h
      rename' h' => h
      by_cases hc : (c == '@') = true
      · rw [if_pos hc] at h
        cases htd : App.tryDom r1 ((r1.takeWhile App.classB).length - 1) with
        | none => rw [htd] at h; exact absurd h (by simp)
        | some kt =>
          obtain ⟨k, t⟩ := kt
          rw [htd] at h
          have he : e = l.takeWhile App.classA ++ '@' :: (r1.take k ++ '.' :: t) := by
            injection h with h'
            exact h'.symm
          obtain ⟨hdot, ht, hlen2, hk1, hkb⟩ := tryDom_sound r1 _ k t htd
          have hklt : k < r1.length := by
            have : ¬ r1.length ≤ k := by
              intro hle
              rw [List.get?_eq_none.mpr hle] at hdot
              exact Option.noConfusion hdot
            omega
          have hkrun : k ≤ (r1.takeWhile App.classB).length := by
            have h1 : 1 ≤ (r1.takeWhile App.classB).length - 1 := le_trans hk1 hkb
            omega
          have hsplitr1 : r1.drop k = '.' :: r1.drop (k + 1) := by
            rw [List.drop_eq_getElem_cons hklt]
            have := hdot
            rw [List.get?_eq_getElem?, List.getElem?_eq_getElem hklt] at this
            injection this with hv
            rw [hv]
          constructor
          · refine ⟨l.takeWhile App.classA, r1.take k, t, he, ?_, ?_, ?_, ?_, ?_, ?_⟩
            · intro hnil
              apply ha
              rw [hnil]
              rfl
            · intro c' hc'
              exact List.mem_takeWhile_imp hc'
            · intro hnil
              have : (r1.take k).length = 0 := by rw [hnil]; rfl
              rw [List.length_take] at this
              omega
            · intro c' hc'
              rw [take_takeWhile r1 k hkrun] at hc'
              exact List.mem_takeWhile_imp (List.mem_of_mem_take hc')
            · intro c' hc'
              rw [ht] at hc'
              exact List.mem_takeWhile_imp hc'
            · exact hlen2
          · have hl : l = l.takeWhile App.classA ++ '@' :: r1 := by
              conv_lhs => rw [← List.takeWhile_append_dropWhile App.classA l]
              rw [hd, show c = '@' by simpa [beq_iff_eq] using hc]
            obtain ⟨post2, hpost2⟩ : t <+: r1.drop (k + 1) := by
              rw [ht]
              exact List.takeWhile_prefix _
            refine ⟨post2, ?_⟩
            rw [he]
            conv_rhs => rw [hl]
            rw [List.append_assoc]
            congr 1
            rw [List.cons_append]
            congr 1
            rw [List.append_assoc, List.cons_append, hpost2, ← hsplitr1,
              List.take_append_drop]
      · rw [if_neg hc] at h
        exact absurd h (by simp)

/-- The alphabetic class is contained in the domain class. -/
theorem alpha_classB (c : Char) (hc : App.isAlphaCh c = true) :
    App.classB c = true := by
  simp only [App.isAlphaCh, Bool.or_eq_true] at hc
  simp only [App.classB, Bool.or_eq_true]
  tauto

/-- Completeness of the positional email matcher: it succeeds on any
suffix that begins with a well-formed email. -/
theorem matchEmailAt_complete {e post l : List Char} (he : App.IsEmail e)
    (hl : e ++ post = l) : (App.matchEmailAt l).isSome = true := by
  obtain ⟨a, b, t, hedef, hane, haA, hbne, hbB, htA, ht2⟩ := he
  have hl2 : l = a ++ '@' :: (b ++ '.' :: (t ++ post)) := by
    rw [← hl, hedef]
    simp [List.append_assoc]
  have htw : l.takeWhile App.classA = a := by
    rw [hl2]
    exact takeWhile_append_stop a _ _ haA (by decide)
  have hdw : l.dropWhile App.classA = '@' :: (b ++ '.' :: (t ++ post)) := by
    rw [hl2]
    exact dropWhile_append_stop a _ _ haA (by decide)
  unfold App.matchEmailAt
  rw [htw, hdw]
  rw [if_neg (show ¬(a.isEmpty = true) by simp [List.isEmpty_iff]; exact hane)]
  simp only [show (('@' : Char) == '@') = true from rfl, if_true]
  have hget : (b ++ '.' :: (t ++ post)).get? b.length = some '.' := by
    rw [List.get?_eq_getElem?, List.getElem?_append_right (le_refl _)]
    simp
  have hdropb : (b ++ '.' :: (t ++ post)).drop (b.length + 1) = t ++ post := by
    rw [List.drop_append 1]
    rfl
  have halpha : 2 ≤ (((b ++ '.' :: (t ++ post)).drop (b.length + 1)).takeWhile
      App.isAlphaCh).length := by
    rw [hdropb, takeWhile_append_all t post htA]
    simp only [List.length_append]
    omega
  have hbrun : b.length ≤ ((b ++ '.' :: (t ++ post)).takeWhile App.classB).length - 1 := by
    rw [takeWhile_append_all b _ hbB, List.takeWhile_cons, if_pos (by decide)]
    rw [takeWhile_append_all t _ (fun c hc => alpha_classB c (htA c hc))]
    simp only [List.length_append, List.length_cons]
    omega
  cases htd : App.tryDom (b ++ '.' :: (t ++ post))
      (((b ++ '.' :: (t ++ post)).takeWhile App.classB).length - 1) with
  | none =>
    exfalso
    refine tryDom_none _ _ htd b.length ?_ hbrun ⟨hget, halpha⟩
    cases b with
    | nil => exact absurd rfl hbne
    | cons y ys => simp
  | some kt => simp

/-- The leftmost scan fails exactly when the matcher fails at every start
position. -/
theorem scanFirst_none_iff (f : List Char → Option (List Char)) : ∀ l : List Char,
    App.scanFirst f l = none ↔ ∀ i, f (l.drop i) = none := by
  intro l
  induction l with
  | nil =>
    constructor
    · intro h i
      rw [List.drop_nil]
      exact h
    · intro h
      exact h 0
  | cons c r ih =>
    constructor
    · intro h i
      have h1 : f (c :: r) = none ∧ App.scanFirst f r = none := by
        cases hf : f (c :: r) with
        | some v =>
          unfold App.scanFirst at h
          rw [hf] at h
          simp [Option.orElse] at h
        | none =>
          unfold App.scanFirst at h
          rw [hf] at h
          simp only [Option.orElse] at h
          exact ⟨rfl, h⟩
      cases i with
      | zero => exact h1.1
      | succ j => exact (ih.mp h1.2) j
    · intro h
      unfold App.scanFirst
      rw [show f (c :: r) = none from h 0]
      simp only [Option.orElse]
      exact ih.mpr (fun j => h (j + 1))

/-- The leftmost scan returns the match at the first succeeding start
position. -/
theorem scanFirst_some (f : List Char → Option (List Char)) :
    ∀ (l e : List Char), App.scanFirst f l = some e →
    ∃ i, i ≤ l.length ∧ f (l.drop i) = some e ∧ ∀ j < i, f (l.drop j) = none := by
  intro l
  induction l with
  | nil =>
    intro e h
    exact ⟨0, le_refl _, h, fun j hj => absurd hj (by omega)⟩
  | cons c r ih =>
    intro e h
    cases hf : f (c :: r) with
    | some v =>
      have hv : v = e := by
        unfold App.scanFirst at h
        rw [hf] at h
        simp [Option.orElse] at h
        exact h
      exact ⟨0, by simp, by rw [hv] at hf; exact hf, fun j hj => absurd hj (by omega)⟩
    | none =>
      have hr : App.scanFirst f r = some e := by
        unfold App.scanFirst at h
        rw [hf] at h
        simpa [Option.orElse] using h
      obtain ⟨i, hle, hi, hj⟩ := ih e hr
      refine ⟨i + 1, by simpa using Nat.succ_le_succ hle, hi, ?_⟩
      intro j hjlt
      cases j with
      | zero => exact hf
      | succ j' => exact hj j' (by omega)

/-- Claim C8: email extraction returns null exactly when the text contains
no well-formed email address; and when it returns an address, that address
is a well-formed email occurring in the text at the earliest position at
which any well-formed email occurs (the first regex match). -/
theorem claim_C8 : ∀ text : List Char,
    ((App.extractEmail text = none) ↔ ¬ App.ContainsEmail text) ∧
    (∀ e, App.extractEmail text = some e →
      App.IsEmail e ∧
      ∃ pre post, text = pre ++ e ++ post ∧
        ∀ pre' e' post', text = pre' ++ e' ++ post' → App.IsEmail e' →
          pre.length ≤ pre'.length) := by
  intro text
  constructor
  · constructor
    · intro h hce
      obtain ⟨pre, e, post, hsplit, hee⟩ := hce
      have hdrop : e ++ post = text.drop pre.length := by
        rw [hsplit, List.append_assoc, List.drop_left]
      have hsome := matchEmailAt_complete hee hdrop
      rw [(scanFirst_none_iff _ text).mp h pre.length] at hsome
      simp at hsome
    · intro hnc
      rcases hcase : App.extractEmail text with _ | e
      · rfl
      · exfalso
        obtain ⟨i, hle, hi, -⟩ := scanFirst_some _ text e hcase
        obtain ⟨hee, hpre⟩ := matchEmailAt_sound hi
        obtain ⟨post, hpost⟩ := hpre
        refine hnc ⟨text.take i, e, post, ?_, hee⟩
        rw [List.append_assoc, hpost, List.take_append_drop]
  · intro e hcase
    obtain ⟨i, hle, hi, hjn⟩ := scanFirst_some _ text e hcase
    obtain ⟨hee, hpre⟩ := matchEmailAt_sound hi
    obtain ⟨post, hpost⟩ := hpre
    refine ⟨hee, text.take i, post, ?_, ?_⟩
    · rw [List.append_assoc, hpost, List.take_append_drop]
    · intro pre' e' post' hsplit' hee'
      rw [List.length_take]
      have hmin : i ⊓ text.length = i := by omega
      rw [hmin]
      by_contra hlt
      push_neg at hlt
      have hdrop : e' ++ post' = text.drop pre'.length := by
        rw [hsplit', List.append_assoc, List.drop_left]
      have hsome := matchEmailAt_complete hee' hdrop
      rw [hjn pre'.length hlt] at hsome
      simp at hsome

/-- Claim C8, witnessed at a concrete text containing one email address. -/
theorem claim_C8_witness :
    App.IsEmail "bob@example.com".toList ∧
    ∃ pre post, "contact: bob@example.com ok".toList =
        pre ++ "bob@example.com".toList ++ post ∧
      ∀ pre' e' post', "contact: bob@example.com ok".toList = pre' ++ e' ++ post' →
        App.IsEmail e' → pre.length ≤ pre'.length :=
  (claim_C8 "contact: bob@example.com ok".toList).2 "bob@example.com".toList (by decide)

/-- Claim C3, witnessed: one `IN_PROGRESS` poll, then `SUCCEEDED` with one
continuation page reached through a non-empty token. -/
theorem claim_C3_witness :
    App.extractTextFromS3Pdf
      (List.replicate 1 App.inProgRes ++
        ⟨"SUCCEEDED".toList,
         some [⟨"LINE".toList, some "Alice Chen".toList⟩],
         App.hdTok [("tok1".toList, [⟨"LINE".toList, some "Java, AWS".toList⟩])]⟩ ::
        App.contChain [("tok1".toList, [⟨"LINE".toList, some "Java, AWS".toList⟩])]) =
      some (.ok (List.intercalate ['\n']
        (App.blocksText [⟨"LINE".toList, some "Alice Chen".toList⟩] ::
          [("tok1".toList, [(⟨"LINE".toList, some "Java, AWS".toList⟩ : App.Block)])].map
            (fun c => App.blocksText c.2)))) :=
  claim_C3.1 1 [⟨"LINE".toList, some "Alice Chen".toList⟩]
    [("tok1".toList, [⟨"LINE".toList, some "Java, AWS".toList⟩])]
    (by decide)
